import Mathlib

/-!
# Verification of the AISS timetable backend solver core

A shallow embedding, in Lean 4, of `app/scheduler.py` from the
AISS-prototype-backend repository: the entity normalizer
(`_normalize_data`), the CP-SAT model builder, the post-solve branch
structure and the solution extractor of `generate_timetable`, together
with the effect trace on the persisted schedule store.

The external CP-SAT engine is not part of the repository; it is embedded
as two parameters of `generate_timetable`: the `CpStatus` it reports and
the Boolean valuation `σ` it claims for the decision variables.  CP-SAT's
documented soundness guarantee — a FEASIBLE/OPTIMAL valuation satisfies
every posted constraint — appears as an explicit hypothesis
(`satisfiesModel`) in the theorems that rely on it.

Machine integers of the source are embedded as `Nat` (all quantities
involved — capacities, sizes, session counts, 1-based indices — are
non-negative and far from any overflow boundary; Python integers are
unbounded anyway).
-/

namespace Scheduler

/-! ## Raw input records (the JSON dataset read from `data.json`)

Fields read with `dict.get(key, default)` in `_normalize_data` may be
absent and are embedded as `Option`; fields read with `dict[key]` are
mandatory. Externally supplied identifiers are arbitrary strings. -/

structure RawFaculty where
  id : String
  name : String
  deriving Repr, DecidableEq

structure RawCourse where
  id : String
  name : String
  requiredSlots : Option Nat
  size : Option Nat
  faculty_id : Option String
  deriving Repr, DecidableEq

structure RawClassroom where
  id : String
  name : String
  capacity : Option Nat
  deriving Repr, DecidableEq

structure RawTimeslot where
  id : String
  label : String
  deriving Repr, DecidableEq

structure RawData where
  faculties : List RawFaculty
  courses : List RawCourse
  classrooms : List RawClassroom
  timeslots : List RawTimeslot
  deriving Repr, DecidableEq

/-! ## Normalized records (`_normalize_data` output) -/

structure NFaculty where
  id : Nat
  name : String
  original_id : String
  deriving Repr, DecidableEq

structure NCourse where
  id : Nat
  name : String
  sessions_per_week : Nat
  size : Nat
  faculty_id : Nat
  original_id : String
  deriving Repr, DecidableEq

structure NClassroom where
  id : Nat
  name : String
  capacity : Nat
  type : String
  original_id : String
  deriving Repr, DecidableEq

structure NTimeslot where
  id : Nat
  label : String
  original_id : String
  deriving Repr, DecidableEq

structure NormData where
  faculties : List NFaculty
  courses : List NCourse
  classrooms : List NClassroom
  timeslots : List NTimeslot
  deriving Repr, DecidableEq

/-- The `{x["id"]: idx + 1 for idx, x in enumerate(xs)}` comprehensions of
`_normalize_data`, as ordered key/value pairs built from start index `n`
(`n = 0` at the call sites). -/
def idMapPairs : Nat → List String → List (String × Nat)
  | _, [] => []
  | n, s :: ss => (s, n + 1) :: idMapPairs (n + 1) ss

/-- Lookup in a Python dict built by successive insertion of `ps`: a later
binding of the same key overrides an earlier one, hence the first match in
the reversed list. -/
def dictOf (ps : List (String × Nat)) (k : String) : Option Nat :=
  (ps.reverse.find? (fun p => p.1 == k)).map (fun p => p.2)

/-- One entry of the `faculties` list built by `_normalize_data`. The `[]`
lookup of the record's own id in the id map always succeeds (the map was
built from exactly these ids), so the `getD 0` default is never taken. -/
def normFaculty (fmap : String → Option Nat) (f : RawFaculty) : NFaculty :=
  { id := (fmap f.id).getD 0, name := f.name, original_id := f.id }

/-- One entry of the `courses` list built by `_normalize_data`:
`sessions_per_week` is `c.get("requiredSlots", 1)`, `size` is
`c.get("size", 30)`, `faculty_id` is
`faculty_id_map.get(c.get("faculty_id"), 1)`. -/
def normCourse (fmap cmap : String → Option Nat) (c : RawCourse) : NCourse :=
  { id := (cmap c.id).getD 0
    name := c.name
    sessions_per_week := c.requiredSlots.getD 1
    size := c.size.getD 30
    faculty_id := match c.faculty_id with
      | none => 1
      | some s => (fmap s).getD 1
    original_id := c.id }

/-- One entry of the `classrooms` list built by `_normalize_data`:
`capacity` is `r.get("capacity", 50)`, `type` is `r.get("type", "Lecture")`. -/
def normClassroom (rmap : String → Option Nat) (r : RawClassroom) : NClassroom :=
  { id := (rmap r.id).getD 0, name := r.name, capacity := r.capacity.getD 50
    type := "Lecture", original_id := r.id }

/-- One entry of the `timeslots` list built by `_normalize_data`. -/
def normTimeslot (tmap : String → Option Nat) (t : RawTimeslot) : NTimeslot :=
  { id := (tmap t.id).getD 0, label := t.label, original_id := t.id }

/-- `_normalize_data`: build the four id maps, then rebuild each entity list
in input order with integer ids and defaulted optional fields. -/
def normalize_data (raw : RawData) : NormData :=
  let fmap := dictOf (idMapPairs 0 (raw.faculties.map (fun f => f.id)))
  let cmap := dictOf (idMapPairs 0 (raw.courses.map (fun c => c.id)))
  let rmap := dictOf (idMapPairs 0 (raw.classrooms.map (fun r => r.id)))
  let tmap := dictOf (idMapPairs 0 (raw.timeslots.map (fun t => t.id)))
  { faculties := raw.faculties.map (normFaculty fmap)
    courses := raw.courses.map (normCourse fmap cmap)
    classrooms := raw.classrooms.map (normClassroom rmap)
    timeslots := raw.timeslots.map (normTimeslot tmap) }

/-! ## Model builder -/

/-- A decision-variable key `(course id, timeslot id, classroom id)`: one
key per capacity-feasible triple, in the insertion order of the `assign`
dict (course outer, timeslot middle, classroom inner). -/
abbrev Cand := Nat × Nat × Nat

/-- The keys of `assign`: a `BoolVar` is created for `(c, t, r)` iff
`r["capacity"] >= c["size"]`. -/
def candidates (courses : List NCourse) (timeslots : List NTimeslot)
    (classrooms : List NClassroom) : List Cand :=
  courses.flatMap fun c =>
    timeslots.flatMap fun t =>
      classrooms.filterMap fun r =>
        if c.size ≤ r.capacity then some (c.id, t.id, r.id) else none

/-- `vars_for_course`: the decision variables whose key has this course id. -/
def varsForCourse (cands : List Cand) (cid : Nat) : List Cand :=
  cands.filter (fun k => k.1 == cid)

/-- The first course (in input order) whose `vars_for_course` is empty —
the course on which constraint building returns early. -/
def firstUncoverable (courses : List NCourse) (cands : List Cand) : Option NCourse :=
  courses.find? (fun c => (varsForCourse cands c.id).isEmpty)

/-- The `course_to_fac = {c["id"]: c["faculty_id"] for c in courses}` dict
(later bindings override), looked up with `.get` (None when absent). -/
def courseToFac (courses : List NCourse) (cid : Nat) : Option Nat :=
  (((courses.map (fun c => (c.id, c.faculty_id))).reverse.find?
      (fun p => p.1 == cid)).map (fun p => p.2))

/-- Number of selected variables among those of `cands` satisfying `p`,
under valuation `σ` — the value of `sum(vars_here)` in a constraint. -/
def nSelected (cands : List Cand) (σ : Cand → Bool) (p : Cand → Bool) : Nat :=
  ((cands.filter p).filter σ).length

/-- Constraint family 1: each course has exactly `sessions_per_week`
selected variables. -/
def coverageOK (courses : List NCourse) (cands : List Cand) (σ : Cand → Bool) : Prop :=
  ∀ c ∈ courses, nSelected cands σ (fun k => k.1 == c.id) = c.sessions_per_week

/-- Constraint family 2: at most one selected variable per
(timeslot, classroom) pair. -/
def roomOK (timeslots : List NTimeslot) (classrooms : List NClassroom)
    (cands : List Cand) (σ : Cand → Bool) : Prop :=
  ∀ t ∈ timeslots, ∀ r ∈ classrooms,
    nSelected cands σ (fun k => k.2.1 == t.id && k.2.2 == r.id) ≤ 1

/-- Constraint family 3: at most one selected variable per
(faculty, timeslot) pair, where the variable's course maps to the faculty
through `course_to_fac`. -/
def facOK (faculties : List NFaculty) (timeslots : List NTimeslot)
    (courses : List NCourse) (cands : List Cand) (σ : Cand → Bool) : Prop :=
  ∀ f ∈ faculties, ∀ t ∈ timeslots,
    nSelected cands σ (fun k => k.2.1 == t.id && courseToFac courses k.1 == some f.id) ≤ 1

/-- All constraints posted to the CP-SAT model hold under valuation `σ`.
This is CP-SAT's soundness guarantee for a FEASIBLE/OPTIMAL valuation; the
engine is external to the repository, so theorems take it as a hypothesis. -/
def satisfiesModel (d : NormData) (cands : List Cand) (σ : Cand → Bool) : Prop :=
  coverageOK d.courses cands σ ∧ roomOK d.timeslots d.classrooms cands σ ∧
    facOK d.faculties d.timeslots d.courses cands σ

instance (d : NormData) (cands : List Cand) (σ : Cand → Bool) :
    Decidable (satisfiesModel d cands σ) := by
  unfold satisfiesModel coverageOK roomOK facOK
  infer_instance

/-! ## Solution extractor and solve driver -/

/-- One extracted record, carrying both what goes into `timetable_records`
(the four display names/labels) and into `db_entries` (the four integer
ids, the faculty id taken from the course record). -/
structure Entry where
  course_id : Nat
  faculty_id : Nat
  timeslot_id : Nat
  classroom_id : Nat
  course_name : String
  faculty_name : String
  classroom_name : String
  timeslot_label : String
  deriving Repr, DecidableEq

/-- The row committed to the `Timetable` table for one entry. -/
structure DbEntry where
  course_id : Nat
  faculty_id : Nat
  timeslot_id : Nat
  classroom_id : Nat
  deriving Repr, DecidableEq

/-- Projection of an extracted entry onto its database row. -/
def dbOf (e : Entry) : DbEntry :=
  { course_id := e.course_id, faculty_id := e.faculty_id
    timeslot_id := e.timeslot_id, classroom_id := e.classroom_id }

/-- The four `next(x for x in xs if x["id"] == ...)` lookups for one
selected variable, in source order (course, faculty, classroom, timeslot).
`none` models the `StopIteration` a `next` on an exhausted generator
raises. -/
def extractOne (d : NormData) (k : Cand) : Option Entry :=
  (d.courses.find? (fun c => c.id == k.1)).bind fun course =>
    (d.faculties.find? (fun f => f.id == course.faculty_id)).bind fun faculty =>
      (d.classrooms.find? (fun r => r.id == k.2.2)).bind fun classroom =>
        (d.timeslots.find? (fun t => t.id == k.2.1)).map fun timeslot =>
          { course_id := k.1, faculty_id := course.faculty_id
            timeslot_id := k.2.1, classroom_id := k.2.2
            course_name := course.name, faculty_name := faculty.name
            classroom_name := classroom.name, timeslot_label := timeslot.label }

/-- The extraction loop over the selected variables, in `assign` insertion
order; the first failing lookup aborts the whole loop (an uncaught
`StopIteration`). -/
def extractEntries (d : NormData) : List Cand → Option (List Entry)
  | [] => some []
  | k :: ks =>
    match extractOne d k with
    | none => none
    | some e =>
      match extractEntries d ks with
      | none => none
      | some es => some (e :: es)

/-- The status CP-SAT's `Solve` reports. `unknown` is what the engine
returns when the time budget elapses without a verdict. -/
inductive CpStatus
  | optimal
  | feasible
  | infeasible
  | unknown
  | modelInvalid
  deriving Repr, DecidableEq

/-- The distinguishable exit branches of `generate_timetable`. Each
constructor is one distinct exit path of the Python function (which
returns `False` on the first four, `True` on `solved`, and propagates an
exception on `exception`); no further distinction is observable. -/
inductive SolveOutcome
  | dataFileMissing
  | insufficientData
  | noValidCandidates (courseName : String)
  | notSolved
  | solved (entries : List Entry)
  | exception
  deriving Repr, DecidableEq

/-- Operations performed on the persisted schedule store and export files,
in order: `_clear_timetable`, the DB commit of the new rows, and the two
export-file writes. -/
inductive StoreOp
  | clear
  | commitDb (rows : List DbEntry)
  | writeJson
  | writeXlsx
  deriving Repr, DecidableEq

/-- Result of one `generate_timetable` call: its exit branch plus the
ordered trace of store/export operations it performed. -/
structure GenResult where
  outcome : SolveOutcome
  trace : List StoreOp
  deriving Repr, DecidableEq

/-- `generate_timetable(time_limit_seconds)`. The file-system state is the
`dataFileExists`/`raw` pair; the external CP-SAT engine is the
`status`/`σ` pair (the status it reports and the valuation it claims —
`time_limit_seconds` is forwarded to the engine and influences only which
status comes back). Everything after `solver.Solve(model)` is the
repository's own code, embedded faithfully: the status test, the eager
`_clear_timetable`, the extraction loop, the DB commit and the two export
writes. -/
def candsOf (d : NormData) : List Cand :=
  candidates d.courses d.timeslots d.classrooms

def generate_timetable (_time_limit_seconds : Nat) (dataFileExists : Bool)
    (raw : RawData) (status : CpStatus) (σ : Cand → Bool) : GenResult :=
  if dataFileExists = false then
    { outcome := .dataFileMissing, trace := [] }
  else if (normalize_data raw).courses.isEmpty || (normalize_data raw).timeslots.isEmpty
      || (normalize_data raw).classrooms.isEmpty then
    { outcome := .insufficientData, trace := [] }
  else
    match firstUncoverable (normalize_data raw).courses (candsOf (normalize_data raw)) with
    | some c => { outcome := .noValidCandidates c.name, trace := [] }
    | none =>
      if status = .optimal ∨ status = .feasible then
        match extractEntries (normalize_data raw) ((candsOf (normalize_data raw)).filter σ) with
        | none => { outcome := .exception, trace := [.clear] }
        | some entries =>
          { outcome := .solved entries
            trace := [.clear, .commitDb (entries.map dbOf), .writeJson, .writeXlsx] }
      else
        { outcome := .notSolved, trace := [] }

/-! ## Helper lemmas about the extractor -/

theorem extractOne_ids {d : NormData} {k : Cand} {e : Entry}
    (h : extractOne d k = some e) :
    e.course_id = k.1 ∧ e.timeslot_id = k.2.1 ∧ e.classroom_id = k.2.2 := by
  simp only [extractOne, Option.bind_eq_some, Option.map_eq_some'] at h
  obtain ⟨course, _, faculty, _, classroom, _, timeslot, _, rfl⟩ := h
  exact ⟨rfl, rfl, rfl⟩

theorem extractOne_faculty {d : NormData} {k : Cand} {e : Entry}
    (h : extractOne d k = some e) :
    ∃ c, d.courses.find? (fun c => c.id == k.1) = some c ∧ e.faculty_id = c.faculty_id := by
  simp only [extractOne, Option.bind_eq_some, Option.map_eq_some'] at h
  obtain ⟨course, hc, faculty, _, classroom, _, timeslot, _, rfl⟩ := h
  exact ⟨course, hc, rfl⟩

theorem extractEntries_forall₂ {d : NormData} :
    ∀ {ks : List Cand} {es : List Entry}, extractEntries d ks = some es →
      List.Forall₂ (fun k e => extractOne d k = some e) ks es := by
  intro ks
  induction ks with
  | nil =>
    intro es h
    simp only [extractEntries, Option.some.injEq] at h
    subst h
    exact List.Forall₂.nil
  | cons k ks ih =>
    intro es h
    unfold extractEntries at h
    split at h
    · exact absurd h (by simp)
    · split at h
      · exact absurd h (by simp)
      · simp only [Option.some.injEq] at h
        subst h
        exact List.Forall₂.cons (by assumption) (ih (by assumption))

theorem countP_eq_of_forall₂ {α β : Type} {R : α → β → Prop} {q : α → Bool} {p : β → Bool}
    (hpq : ∀ a b, R a b → q a = p b) :
    ∀ {l₁ : List α} {l₂ : List β}, List.Forall₂ R l₁ l₂ → l₁.countP q = l₂.countP p := by
  intro l₁ l₂ h
  induction h with
  | nil => rfl
  | cons hR _ ih => simp only [List.countP_cons, ih, hpq _ _ hR]

/-- Transfer a count over extracted entries back to a count over the
selected variables they came from. -/
theorem countP_entries {d : NormData} {ks : List Cand} {es : List Entry}
    (hex : extractEntries d ks = some es) {p : Entry → Bool} {q : Cand → Bool}
    (hpq : ∀ k e, extractOne d k = some e → q k = p e) :
    es.countP p = ks.countP q :=
  (countP_eq_of_forall₂ hpq (extractEntries_forall₂ hex)).symm

/-- If every selected variable's lookups succeed, the whole extraction
loop succeeds. -/
theorem extractEntries_all_some {d : NormData} :
    ∀ {ks : List Cand}, (∀ k ∈ ks, (extractOne d k).isSome) →
      ∃ es, extractEntries d ks = some es := by
  intro ks
  induction ks with
  | nil => exact fun _ => ⟨[], rfl⟩
  | cons k ks ih =>
    intro hall
    obtain ⟨e, he⟩ := Option.isSome_iff_exists.mp (hall k (by simp))
    obtain ⟨es, hes⟩ := ih (fun k hk => hall k (by simp [hk]))
    exact ⟨e :: es, by simp only [extractEntries, he, hes]⟩

/-! ## Helper lemmas about the candidate set and constraint counts -/

theorem mem_candidates {courses : List NCourse} {timeslots : List NTimeslot}
    {classrooms : List NClassroom} {k : Cand} :
    k ∈ candidates courses timeslots classrooms ↔
      ∃ c ∈ courses, ∃ t ∈ timeslots, ∃ r ∈ classrooms,
        c.size ≤ r.capacity ∧ k = (c.id, t.id, r.id) := by
  simp only [candidates, List.mem_flatMap, List.mem_filterMap]
  constructor
  · rintro ⟨c, hc, t, ht, r, hr, hk⟩
    split at hk
    · exact ⟨c, hc, t, ht, r, hr, by assumption, (Option.some.injEq _ _ ▸ hk).symm⟩
    · exact absurd hk (by simp)
  · rintro ⟨c, hc, t, ht, r, hr, hcap, rfl⟩
    exact ⟨c, hc, t, ht, r, hr, by rw [if_pos hcap]⟩

/-- `sum(vars_here)` as a `countP` over the selected variables. -/
theorem nSelected_eq_countP (cands : List Cand) (σ p : Cand → Bool) :
    nSelected cands σ p = (cands.filter σ).countP p := by
  unfold nSelected
  rw [← List.countP_eq_length_filter, List.countP_filter, List.countP_filter]
  exact List.countP_congr (fun a _ => by rw [Bool.and_comm])

/-! ## Helper lemmas about keyed lookup under distinct ids -/

theorem find?_key_of_mem {α β : Type} [BEq β] [LawfulBEq β] {l : List α} {h : α → β} {a : α}
    (hnd : (l.map h).Nodup) (ha : a ∈ l) :
    l.find? (fun x => h x == h a) = some a := by
  induction l with
  | nil => cases ha
  | cons b t ih =>
    rw [List.map_cons, List.nodup_cons] at hnd
    rcases List.mem_cons.mp ha with rfl | hat
    · exact List.find?_cons_of_pos _ (by simp)
    · have hne : (h b == h a) = false := by
        refine beq_eq_false_iff_ne.mpr (fun hbe => hnd.1 ?_)
        rw [hbe]
        exact List.mem_map_of_mem h hat
      rw [List.find?_cons_of_neg _ (by simp [hne]), ih hnd.2 hat]

theorem find?_key_reverse {α β : Type} [BEq β] [LawfulBEq β] {l : List α} {h : α → β} {key : β}
    (hnd : (l.map h).Nodup) :
    l.reverse.find? (fun x => h x == key) = l.find? (fun x => h x == key) := by
  induction l with
  | nil => rfl
  | cons b t ih =>
    rw [List.map_cons, List.nodup_cons] at hnd
    rw [List.reverse_cons, List.find?_append, ih hnd.2]
    rcases hb : (h b == key) with _ | _
    · rw [List.find?_cons_of_neg _ (by simp [hb])]
      cases ht : t.find? (fun x => h x == key) <;> simp [ht, List.find?_cons, hb]
    · have htn : t.find? (fun x => h x == key) = none := by
        rw [List.find?_eq_none]
        intro x hx hkx
        refine hnd.1 ?_
        have : h x = key := by simpa using hkx
        have hbk : h b = key := by simpa using hb
        rw [hbk, ← this]
        exact List.mem_map_of_mem h hx
      have hsb : [b].find? (fun x => h x == key) = some b :=
        List.find?_cons_of_pos _ (by simp [hb])
      rw [htn, hsb, List.find?_cons_of_pos t (by simp [hb])]
      rfl

/-! ## Helper lemmas about the id maps: with pairwise-distinct raw ids the
normalized id of the record at position `i` (0-based) is `i + 1`. -/

theorem idMapPairs_map_fst : ∀ (n : Nat) (ids : List String),
    (idMapPairs n ids).map Prod.fst = ids
  | _, [] => rfl
  | n, s :: ss => by
    simp only [idMapPairs, List.map_cons, idMapPairs_map_fst (n + 1) ss]

theorem find?_idMapPairs :
    ∀ (ids : List String), ids.Nodup → ∀ (n i : Nat) (h : i < ids.length),
      (idMapPairs n ids).find? (fun p => p.1 == ids[i])
        = some (ids[i], n + i + 1)
  | [], _, _, i, h => absurd h (by simp)
  | s :: ss, hnd, n, 0, _ => by
    simp only [idMapPairs, List.getElem_cons_zero]
    exact List.find?_cons_of_pos _ (by simp)
  | s :: ss, hnd, n, i + 1, h => by
    rw [List.nodup_cons] at hnd
    have hi : i < ss.length := Nat.lt_of_succ_lt_succ (by simpa using h)
    have hmem : ss[i] ∈ ss := List.getElem_mem hi
    have hne : (s == ss[i]) = false :=
      beq_eq_false_iff_ne.mpr (fun he => hnd.1 (he ▸ hmem))
    simp only [idMapPairs, List.getElem_cons_succ]
    rw [List.find?_cons_of_neg _ (by simpa using hne),
      find?_idMapPairs ss hnd.2 (n + 1) i hi]
    congr 2
    omega

theorem dictOf_idMapPairs {ids : List String} (hnd : ids.Nodup) {i : Nat}
    (h : i < ids.length) :
    dictOf (idMapPairs 0 ids) ids[i] = some (i + 1) := by
  unfold dictOf
  have hmap : ((idMapPairs 0 ids).map Prod.fst).Nodup := by
    rw [idMapPairs_map_fst]; exact hnd
  rw [find?_key_reverse hmap, find?_idMapPairs ids hnd 0 i h]
  simp

/-- Each normalization pass maps, position by position, a record list with
pairwise-distinct raw ids to records carrying normalized ids `1, 2, …`. -/
theorem map_id_of_norm {α β : Type} (g : (String → Option Nat) → α → β)
    (idOf : α → String) (nid : β → Nat)
    (hg : ∀ m a, nid (g m a) = (m (idOf a)).getD 0)
    (xs : List α) (hnd : (xs.map idOf).Nodup) :
    (xs.map (g (dictOf (idMapPairs 0 (xs.map idOf))))).map nid
      = List.range' 1 xs.length := by
  apply List.ext_get
  · simp
  · intro n h1 h2
    have hn : n < xs.length := by simpa using h1
    simp only [List.get_eq_getElem, List.getElem_map, List.getElem_range']
    rw [hg]
    have hmn : n < (xs.map idOf).length := by simpa using hn
    have hget : idOf xs[n] = (xs.map idOf)[n] := (List.getElem_map idOf).symm
    rw [hget, dictOf_idMapPairs hnd hmn, Option.getD_some]
    omega

theorem normalized_course_ids {raw : RawData}
    (hnd : (raw.courses.map (fun c => c.id)).Nodup) :
    (normalize_data raw).courses.map (fun c => c.id)
      = List.range' 1 raw.courses.length := by
  have := map_id_of_norm
    (fun m => normCourse (dictOf (idMapPairs 0 (raw.faculties.map (fun f => f.id)))) m)
    (fun c => c.id) (fun c => c.id) (fun _ _ => rfl) raw.courses hnd
  simpa [normalize_data] using this

theorem normalized_classroom_ids {raw : RawData}
    (hnd : (raw.classrooms.map (fun r => r.id)).Nodup) :
    (normalize_data raw).classrooms.map (fun r => r.id)
      = List.range' 1 raw.classrooms.length := by
  have := map_id_of_norm (fun m => normClassroom m)
    (fun r => r.id) (fun r => r.id) (fun _ _ => rfl) raw.classrooms hnd
  simpa [normalize_data] using this

theorem normalized_course_ids_nodup {raw : RawData}
    (hnd : (raw.courses.map (fun c => c.id)).Nodup) :
    ((normalize_data raw).courses.map (fun c => c.id)).Nodup := by
  rw [normalized_course_ids hnd]
  exact List.nodup_range' 1 _

theorem normalized_classroom_ids_nodup {raw : RawData}
    (hnd : (raw.classrooms.map (fun r => r.id)).Nodup) :
    ((normalize_data raw).classrooms.map (fun r => r.id)).Nodup := by
  rw [normalized_classroom_ids hnd]
  exact List.nodup_range' 1 _

/-- With distinct normalized ids, the `course_to_fac` dict agrees with the
extractor's `next(...)` lookup: a member course's id maps to its own
faculty id. -/
theorem courseToFac_eq {courses : List NCourse}
    (hnd : (courses.map (fun c => c.id)).Nodup) {c : NCourse} (hc : c ∈ courses) :
    courseToFac courses c.id = some c.faculty_id := by
  unfold courseToFac
  have hmap : ((courses.map (fun c => (c.id, c.faculty_id))).map Prod.fst).Nodup := by
    rw [List.map_map]
    simpa [Function.comp] using hnd
  rw [find?_key_reverse hmap,
    find?_key_of_mem hmap (List.mem_map_of_mem _ hc)]
  rfl

theorem exists_of_forall₂_mem_right {α β : Type} {R : α → β → Prop} :
    ∀ {l₁ : List α} {l₂ : List β}, List.Forall₂ R l₁ l₂ →
      ∀ {b : β}, b ∈ l₂ → ∃ a ∈ l₁, R a b := by
  intro l₁ l₂ h
  induction h with
  | nil => intro b hb; cases hb
  | cons hR _ ih =>
    intro b hb
    rcases List.mem_cons.mp hb with rfl | hb2
    · exact ⟨_, by simp, hR⟩
    · obtain ⟨a, ha, hab⟩ := ih hb2
      exact ⟨a, by simp [ha], hab⟩

/-- In a list whose ids are pairwise distinct, two members with the same
id are the same record. -/
theorem mem_id_inj {α β : Type} [BEq β] [LawfulBEq β] {l : List α} {h : α → β}
    (hnd : (l.map h).Nodup) {a b : α} (ha : a ∈ l) (hb : b ∈ l)
    (heq : h a = h b) : a = b := by
  have h1 := find?_key_of_mem hnd ha
  have h2 := find?_key_of_mem hnd hb
  rw [heq] at h1
  rw [h1] at h2
  exact Option.some.inj h2

/-! ## Branch analysis of `generate_timetable` -/

/-- Every run of `generate_timetable` ends in exactly one of six shapes:
the five failure exits (empty trace, except the in-extraction exception,
which fires after the eager clear) or the solved exit with its full
clear/commit/export trace. -/
theorem generate_cases (tl : Nat) (dfe : Bool) (raw : RawData) (status : CpStatus)
    (σ : Cand → Bool) :
    generate_timetable tl dfe raw status σ = { outcome := .dataFileMissing, trace := [] } ∨
    generate_timetable tl dfe raw status σ = { outcome := .insufficientData, trace := [] } ∨
    (∃ n, generate_timetable tl dfe raw status σ
        = { outcome := .noValidCandidates n, trace := [] }) ∨
    generate_timetable tl dfe raw status σ = { outcome := .notSolved, trace := [] } ∨
    generate_timetable tl dfe raw status σ = { outcome := .exception, trace := [.clear] } ∨
    (∃ es, generate_timetable tl dfe raw status σ
        = { outcome := .solved es
            trace := [.clear, .commitDb (es.map dbOf), .writeJson, .writeXlsx] }) := by
  unfold generate_timetable
  split
  · exact Or.inl rfl
  · split
    · exact Or.inr (Or.inl rfl)
    · split
      · next c _ => exact Or.inr (Or.inr (Or.inl ⟨c.name, rfl⟩))
      · split
        · split
          · exact Or.inr (Or.inr (Or.inr (Or.inr (Or.inl rfl))))
          · next es _ =>
            exact Or.inr (Or.inr (Or.inr (Or.inr (Or.inr ⟨es, rfl⟩))))
        · exact Or.inr (Or.inr (Or.inr (Or.inl rfl)))

/-- A `solved` outcome can only come from a successful extraction of the
selected variables. -/
theorem generate_solved_inv {tl : Nat} {raw : RawData} {status : CpStatus}
    {σ : Cand → Bool} {es : List Entry}
    (h : (generate_timetable tl true raw status σ).outcome = .solved es) :
    extractEntries (normalize_data raw) ((candsOf (normalize_data raw)).filter σ)
      = some es := by
  unfold generate_timetable at h
  rw [if_neg (by simp)] at h
  split at h
  · simp at h
  · split at h
    · simp at h
    · split at h
      · split at h
        · simp at h
        · next entries heq =>
          simp only [SolveOutcome.solved.injEq] at h
          exact h ▸ heq
      · simp at h

/-- When the solver reports neither OPTIMAL nor FEASIBLE (infeasible,
timeout/unknown, or invalid alike), a run that reaches the solve returns
the bare not-solved exit. -/
theorem generate_not_feasible (tl : Nat) (raw : RawData) (status : CpStatus)
    (σ : Cand → Bool)
    (hg : ((normalize_data raw).courses.isEmpty || (normalize_data raw).timeslots.isEmpty
        || (normalize_data raw).classrooms.isEmpty) = false)
    (hf : firstUncoverable (normalize_data raw).courses (candsOf (normalize_data raw)) = none)
    (hne : ¬(status = .optimal ∨ status = .feasible)) :
    generate_timetable tl true raw status σ = { outcome := .notSolved, trace := [] } := by
  unfold generate_timetable
  rw [if_neg (by simp), if_neg (by simp [hg])]
  split
  · next c heq => rw [hf] at heq; cases heq
  · rw [if_neg hne]

/-- A run that reaches the solve with a FEASIBLE/OPTIMAL status and whose
extraction loop succeeds returns `solved` with exactly the extracted
entries — no re-verification of the claimed valuation happens anywhere on
this path. -/
theorem generate_extract_solved {tl : Nat} {raw : RawData} {status : CpStatus}
    {σ : Cand → Bool} {es : List Entry}
    (hst : status = CpStatus.optimal ∨ status = CpStatus.feasible)
    (hg : ((normalize_data raw).courses.isEmpty || (normalize_data raw).timeslots.isEmpty
        || (normalize_data raw).classrooms.isEmpty) = false)
    (hf : firstUncoverable (normalize_data raw).courses (candsOf (normalize_data raw)) = none)
    (hex : extractEntries (normalize_data raw) ((candsOf (normalize_data raw)).filter σ)
        = some es) :
    (generate_timetable tl true raw status σ).outcome = .solved es := by
  unfold generate_timetable
  rw [if_neg (by simp), if_neg (by simp [hg])]
  split
  · next c heq => rw [hf] at heq; cases heq
  · rw [if_pos hst]
    split
    · next heq => rw [hex] at heq; cases heq
    · next es2 heq =>
      rw [hex] at heq
      cases heq
      rfl

/-! ## Concrete datasets used by witnesses and counterexamples -/

/-- Scenario A of the spec: 1 course (sessions=2, size=10), 1 faculty,
2 classrooms (capacity 20 each), 3 timeslots. -/
def rawA : RawData :=
  { faculties := [⟨"F1", "Prof A"⟩]
    courses := [⟨"C1", "Math", some 2, some 10, some "F1"⟩]
    classrooms := [⟨"R1", "Room 1", some 20⟩, ⟨"R2", "Room 2", some 20⟩]
    timeslots := [⟨"T1", "Mon 9"⟩, ⟨"T2", "Mon 10"⟩, ⟨"T3", "Mon 11"⟩] }

/-- A satisfying valuation for Scenario A: the course meets at timeslot 1
in room 1 and at timeslot 2 in room 2. -/
def sigA : Cand → Bool := fun k => k == (1, 1, 1) || k == (1, 2, 2)

/-- The entries `generate_timetable` extracts from `sigA` on `rawA`. -/
def esA : List Entry :=
  [⟨1, 1, 1, 1, "Math", "Prof A", "Room 1", "Mon 9"⟩,
   ⟨1, 1, 2, 2, "Math", "Prof A", "Room 2", "Mon 10"⟩]

/-! ## The claims -/

/-- **C1.** For every input dataset on which the solve succeeds (a Solved
result is produced, which per CP-SAT's soundness contract means the
claimed valuation satisfies every posted constraint), and for every course
`c` in that dataset, the number of Schedule Entries emitted for `c` equals
exactly `c`'s required sessions-per-week value. -/
theorem claim_C1_coverage (tl : Nat) (raw : RawData) (status : CpStatus)
    (σ : Cand → Bool) (es : List Entry)
    (hsol : (generate_timetable tl true raw status σ).outcome = .solved es)
    (hsat : satisfiesModel (normalize_data raw) (candsOf (normalize_data raw)) σ) :
    ∀ c ∈ (normalize_data raw).courses,
      es.countP (fun e => e.course_id == c.id) = c.sessions_per_week := by
  intro c hc
  have hex := generate_solved_inv hsol
  have hcount := countP_entries hex (p := fun e => e.course_id == c.id)
    (q := fun k => k.1 == c.id) ?hpq
  case hpq =>
    intro k e hke
    obtain ⟨h1, _, _⟩ := extractOne_ids hke
    show (k.1 == c.id) = (e.course_id == c.id)
    rw [h1]
  rw [hcount, ← nSelected_eq_countP]
  exact hsat.1 c hc

theorem claim_C1_coverage_witness :
    esA.countP (fun e => e.course_id == 1) = 2 := by
  have hcs : (normalize_data rawA).courses = [⟨1, "Math", 2, 10, 1, "C1"⟩] := by rfl
  have h := claim_C1_coverage 30 rawA CpStatus.feasible sigA esA (by rfl) (by decide)
    ⟨1, "Math", 2, 10, 1, "C1"⟩ (by rw [hcs]; exact List.mem_singleton.mpr rfl)
  simpa using h

/-- **C2.** In every Solved result (with the external solver's soundness
guarantee as the `satisfiesModel` hypothesis, and the spec's identity
invariant as the `Nodup` hypothesis), resource exclusivity holds: for
every (timeslot, classroom) pair at most one Schedule Entry uses that
pair, and for every (timeslot, faculty) pair at most one Schedule Entry's
course maps to that faculty. -/
theorem claim_C2_exclusivity (tl : Nat) (raw : RawData) (status : CpStatus)
    (σ : Cand → Bool) (es : List Entry)
    (hnd : (raw.courses.map (fun c => c.id)).Nodup)
    (hsol : (generate_timetable tl true raw status σ).outcome = .solved es)
    (hsat : satisfiesModel (normalize_data raw) (candsOf (normalize_data raw)) σ) :
    (∀ t ∈ (normalize_data raw).timeslots, ∀ r ∈ (normalize_data raw).classrooms,
      es.countP (fun e => e.timeslot_id == t.id && e.classroom_id == r.id) ≤ 1) ∧
    (∀ t ∈ (normalize_data raw).timeslots, ∀ f ∈ (normalize_data raw).faculties,
      es.countP (fun e => e.timeslot_id == t.id && e.faculty_id == f.id) ≤ 1) := by
  have hex := generate_solved_inv hsol
  constructor
  · intro t ht r hr
    have hcount := countP_entries hex
      (p := fun e => e.timeslot_id == t.id && e.classroom_id == r.id)
      (q := fun k => k.2.1 == t.id && k.2.2 == r.id) ?hpq
    case hpq =>
      intro k e hke
      obtain ⟨_, h2, h3⟩ := extractOne_ids hke
      show (k.2.1 == t.id && k.2.2 == r.id) = (e.timeslot_id == t.id && e.classroom_id == r.id)
      rw [h2, h3]
    rw [hcount, ← nSelected_eq_countP]
    exact hsat.2.1 t ht r hr
  · intro t ht f hf
    have hcount := countP_entries hex
      (p := fun e => e.timeslot_id == t.id && e.faculty_id == f.id)
      (q := fun k => k.2.1 == t.id
        && courseToFac (normalize_data raw).courses k.1 == some f.id) ?hpq
    case hpq =>
      intro k e hke
      obtain ⟨_, h2, _⟩ := extractOne_ids hke
      obtain ⟨c, hcf, hface⟩ := extractOne_faculty hke
      have hcid : c.id = k.1 := by simpa using List.find?_some hcf
      have hctf : courseToFac (normalize_data raw).courses k.1 = some c.faculty_id := by
        rw [← hcid]
        exact courseToFac_eq (normalized_course_ids_nodup hnd) (List.mem_of_find?_eq_some hcf)
      show (k.2.1 == t.id && courseToFac (normalize_data raw).courses k.1 == some f.id)
          = (e.timeslot_id == t.id && e.faculty_id == f.id)
      rw [h2, hface, hctf]
      rfl
    rw [hcount, ← nSelected_eq_countP]
    exact hsat.2.2 f hf t ht

theorem claim_C2_exclusivity_witness :
    esA.countP (fun e => e.timeslot_id == 1 && e.classroom_id == 1) ≤ 1 ∧
    esA.countP (fun e => e.timeslot_id == 1 && e.faculty_id == 1) ≤ 1 := by
  have hts : (normalize_data rawA).timeslots.head? = some ⟨1, "Mon 9", "T1"⟩ := by rfl
  have h := claim_C2_exclusivity 30 rawA CpStatus.feasible sigA esA (by decide)
    (by rfl) (by decide)
  have ht : (⟨1, "Mon 9", "T1"⟩ : NTimeslot) ∈ (normalize_data rawA).timeslots :=
    List.mem_of_mem_head? hts
  have hr : (⟨1, "Room 1", 20, "Lecture", "R1"⟩ : NClassroom)
      ∈ (normalize_data rawA).classrooms := by
    have : (normalize_data rawA).classrooms.head? = some ⟨1, "Room 1", 20, "Lecture", "R1"⟩ := by
      rfl
    exact List.mem_of_mem_head? this
  have hfm : (⟨1, "Prof A", "F1"⟩ : NFaculty) ∈ (normalize_data rawA).faculties := by
    have : (normalize_data rawA).faculties.head? = some ⟨1, "Prof A", "F1"⟩ := by rfl
    exact List.mem_of_mem_head? this
  exact ⟨h.1 _ ht _ hr, h.2 _ ht _ hfm⟩

/-- **C3.** A decision variable is created for the triple
(course, timeslot, classroom) if and only if the classroom's capacity is
at least the course's enrollment size; consequently every Schedule Entry
in a Solved result has classroom capacity ≥ its course's enrollment size.
(The spec's identity invariant appears as the two `Nodup` hypotheses.) -/
theorem claim_C3_capacity (tl : Nat) (raw : RawData) (status : CpStatus)
    (σ : Cand → Bool) (es : List Entry)
    (hndc : (raw.courses.map (fun c => c.id)).Nodup)
    (hndr : (raw.classrooms.map (fun r => r.id)).Nodup) :
    (∀ c ∈ (normalize_data raw).courses, ∀ t ∈ (normalize_data raw).timeslots,
      ∀ r ∈ (normalize_data raw).classrooms,
        ((c.id, t.id, r.id) ∈ candsOf (normalize_data raw) ↔ c.size ≤ r.capacity)) ∧
    ((generate_timetable tl true raw status σ).outcome = .solved es →
      ∀ e ∈ es, ∀ r ∈ (normalize_data raw).classrooms, r.id = e.classroom_id →
        ∀ c ∈ (normalize_data raw).courses, c.id = e.course_id →
          c.size ≤ r.capacity) := by
  have hnc := normalized_course_ids_nodup hndc
  have hnr := normalized_classroom_ids_nodup hndr
  constructor
  · intro c hc t ht r hr
    constructor
    · intro hmem
      obtain ⟨c2, hc2, t2, _, r2, hr2, hcap, htrip⟩ := mem_candidates.mp hmem
      have hce : c.id = c2.id := congrArg Prod.fst htrip
      have hre : r.id = r2.id := congrArg (fun p => p.2.2) htrip
      have hc2c : c2 = c := mem_id_inj hnc hc2 hc hce.symm
      have hr2r : r2 = r := mem_id_inj hnr hr2 hr hre.symm
      rw [← hc2c, ← hr2r]
      exact hcap
    · intro hcap
      exact mem_candidates.mpr ⟨c, hc, t, ht, r, hr, hcap, rfl⟩
  · intro hsol e he r hr hre c hc hce
    have hex := generate_solved_inv hsol
    obtain ⟨k, hk, hke⟩ := exists_of_forall₂_mem_right (extractEntries_forall₂ hex) he
    have hkc : k ∈ candsOf (normalize_data raw) := (List.mem_filter.mp hk).1
    obtain ⟨c2, hc2, t2, _, r2, hr2, hcap, htrip⟩ := mem_candidates.mp hkc
    obtain ⟨h1, _, h3⟩ := extractOne_ids hke
    have hce2 : c2.id = c.id := by
      rw [hce, h1, htrip]
    have hre2 : r2.id = r.id := by
      rw [hre, h3, htrip]
    have hc2c : c2 = c := mem_id_inj hnc hc2 hc hce2
    have hr2r : r2 = r := mem_id_inj hnr hr2 hr hre2
    rw [← hc2c, ← hr2r]
    exact hcap

theorem claim_C3_capacity_witness :
    ((1, 1, 1) ∈ candsOf (normalize_data rawA) ↔ (10 : Nat) ≤ 20) ∧ (10 : Nat) ≤ 20 := by
  have h := claim_C3_capacity 30 rawA CpStatus.feasible sigA esA (by decide) (by decide)
  have hc : (⟨1, "Math", 2, 10, 1, "C1"⟩ : NCourse) ∈ (normalize_data rawA).courses := by
    have : (normalize_data rawA).courses.head? = some ⟨1, "Math", 2, 10, 1, "C1"⟩ := by rfl
    exact List.mem_of_mem_head? this
  have ht : (⟨1, "Mon 9", "T1"⟩ : NTimeslot) ∈ (normalize_data rawA).timeslots := by
    have : (normalize_data rawA).timeslots.head? = some ⟨1, "Mon 9", "T1"⟩ := by rfl
    exact List.mem_of_mem_head? this
  have hr : (⟨1, "Room 1", 20, "Lecture", "R1"⟩ : NClassroom)
      ∈ (normalize_data rawA).classrooms := by
    have : (normalize_data rawA).classrooms.head? = some ⟨1, "Room 1", 20, "Lecture", "R1"⟩ := by
      rfl
    exact List.mem_of_mem_head? this
  have hcap := (h.2 (by rfl) ⟨1, 1, 1, 1, "Math", "Prof A", "Room 1", "Mon 9"⟩ (by simp [esA])
    _ hr rfl _ hc rfl)
  exact ⟨h.1 _ hc _ ht _ hr, hcap⟩

/-- Scenario B of the spec: one course of size 100 and a single classroom
of capacity 50 — the course is uncoverable. -/
def raw4 : RawData :=
  { faculties := [⟨"F1", "Prof A"⟩]
    courses := [⟨"C1", "Math", some 1, some 100, some "F1"⟩]
    classrooms := [⟨"R1", "Room 1", some 50⟩]
    timeslots := [⟨"T1", "Mon 9"⟩] }

/-- A dataset with an uncoverable course but no timeslots: the
insufficient-data guard fires before constraint building, so the run does
not reach the branch that names the offending course. -/
def raw4t : RawData :=
  { faculties := [⟨"F1", "Prof A"⟩]
    courses := [⟨"C1", "Math", some 1, some 100, some "F1"⟩]
    classrooms := [⟨"R1", "Room 1", some 50⟩]
    timeslots := [] }

/-- **C4, counterexample.** On `raw4t` a course's enrollment (100) exceeds
every classroom's capacity (50), yet the solve does not fail with the
build-time branch identifying the offending course: the empty-timeslots
guard exits first with the insufficient-data branch. -/
theorem claim_C4_counterexample :
    (∀ r ∈ (normalize_data raw4t).classrooms,
        ∀ c ∈ (normalize_data raw4t).courses, r.capacity < c.size) ∧
    (generate_timetable 30 true raw4t CpStatus.feasible (fun _ => true)).outcome
        = SolveOutcome.insufficientData ∧
    ∀ n, (generate_timetable 30 true raw4t CpStatus.feasible (fun _ => true)).outcome
        ≠ SolveOutcome.noValidCandidates n := by
  refine ⟨by decide, by rfl, ?_⟩
  intro n h
  rw [show (generate_timetable 30 true raw4t CpStatus.feasible (fun _ => true)).outcome
      = SolveOutcome.insufficientData from rfl] at h
  cases h

/-- **C4, amended.** For every input whose dataset passes the emptiness
guard (at least one timeslot and one classroom; distinct course ids per
the spec's identity invariant) and in which some course's enrollment size
exceeds the capacity of every classroom, the solve fails at model-build
time on the build-check branch, naming an offending course — independently
of the solver status and valuation, hence before any search result is
consulted — and the result is never the not-solved (infeasible/timeout)
exit and never Solved. -/
theorem claim_C4_uncoverable (tl : Nat) (raw : RawData)
    (hnd : (raw.courses.map (fun c => c.id)).Nodup)
    (hts : raw.timeslots ≠ []) (hrs : raw.classrooms ≠ [])
    (huncov : ∃ c ∈ (normalize_data raw).courses,
      ∀ r ∈ (normalize_data raw).classrooms, r.capacity < c.size) :
    ∃ c ∈ (normalize_data raw).courses,
      (∀ r ∈ (normalize_data raw).classrooms, r.capacity < c.size) ∧
      ∀ status σ,
        (generate_timetable tl true raw status σ).outcome = .noValidCandidates c.name ∧
        (generate_timetable tl true raw status σ).outcome ≠ .notSolved ∧
        ∀ es, (generate_timetable tl true raw status σ).outcome ≠ .solved es := by
  obtain ⟨c, hc, hall⟩ := huncov
  have hnc := normalized_course_ids_nodup hnd
  -- the witness course's variable list is empty, so the find? succeeds
  have hcempty : (varsForCourse (candsOf (normalize_data raw)) c.id).isEmpty = true := by
    rw [List.isEmpty_eq_true]
    unfold varsForCourse
    rw [List.filter_eq_nil_iff]
    intro k hk hkc
    obtain ⟨c2, hc2, t2, _, r2, hr2, hcap, htrip⟩ := mem_candidates.mp hk
    have hce : c2.id = c.id := by
      have : k.1 = c.id := by simpa using hkc
      rw [← this, htrip]
    have : c2 = c := mem_id_inj hnc hc2 hc hce
    subst this
    exact absurd hcap (Nat.not_le_of_lt (hall r2 hr2))
  have hsome : ∃ c0, firstUncoverable (normalize_data raw).courses
      (candsOf (normalize_data raw)) = some c0 := by
    rw [← Option.isSome_iff_exists]
    unfold firstUncoverable
    rw [List.find?_isSome]
    exact ⟨c, hc, by simpa using hcempty⟩
  obtain ⟨c0, hc0⟩ := hsome
  have hc0find := hc0
  unfold firstUncoverable at hc0find
  have hc0mem : c0 ∈ (normalize_data raw).courses := List.mem_of_find?_eq_some hc0find
  have hc0empty : (varsForCourse (candsOf (normalize_data raw)) c0.id).isEmpty = true := by
    simpa using List.find?_some hc0find
  -- an empty variable list with timeslots present means every room is too small
  have hc0all : ∀ r ∈ (normalize_data raw).classrooms, r.capacity < c0.size := by
    intro r hr
    by_contra hle
    have hcap : c0.size ≤ r.capacity := Nat.le_of_not_lt (fun hlt => hle hlt)
    obtain ⟨t, ht⟩ : ∃ t, t ∈ (normalize_data raw).timeslots := by
      cases hts2 : raw.timeslots with
      | nil => exact absurd hts2 hts
      | cons t ts =>
        refine ⟨normTimeslot (dictOf (idMapPairs 0 (raw.timeslots.map (fun t => t.id)))) t, ?_⟩
        simp [normalize_data, hts2]
    have hmem : (c0.id, t.id, r.id) ∈ candsOf (normalize_data raw) :=
      mem_candidates.mpr ⟨c0, hc0mem, t, ht, r, hr, hcap, rfl⟩
    have : (c0.id, t.id, r.id) ∈ varsForCourse (candsOf (normalize_data raw)) c0.id := by
      unfold varsForCourse
      rw [List.mem_filter]
      exact ⟨hmem, by simp⟩
    rw [List.isEmpty_eq_true] at hc0empty
    rw [hc0empty] at this
    cases this
  refine ⟨c0, hc0mem, hc0all, ?_⟩
  intro status σ
  have hout : (generate_timetable tl true raw status σ).outcome
      = .noValidCandidates c0.name := by
    unfold generate_timetable
    rw [if_neg (by simp)]
    have hg : ((normalize_data raw).courses.isEmpty || (normalize_data raw).timeslots.isEmpty
        || (normalize_data raw).classrooms.isEmpty) = false := by
      have h1 : (normalize_data raw).courses ≠ [] := by
        intro h
        rw [h] at hc
        cases hc
      have h2 : (normalize_data raw).timeslots ≠ [] := by
        simp [normalize_data]
        exact hts
      have h3 : (normalize_data raw).classrooms ≠ [] := by
        simp [normalize_data]
        exact hrs
      simp [List.isEmpty_eq_true, h1, h2, h3]
    rw [if_neg (by simp [hg])]
    split
    · next c1 heq =>
      rw [hc0] at heq
      cases heq
      rfl
    · next heq =>
      rw [hc0] at heq
      cases heq
  refine ⟨hout, ?_, ?_⟩
  · rw [hout]
    intro h
    cases h
  · intro es
    rw [hout]
    intro h
    cases h

theorem claim_C4_uncoverable_witness :
    ∃ c ∈ (normalize_data raw4).courses,
      (∀ r ∈ (normalize_data raw4).classrooms, r.capacity < c.size) ∧
      (generate_timetable 30 true raw4 CpStatus.feasible (fun _ => true)).outcome
        = .noValidCandidates c.name := by
  obtain ⟨c, hc, hall, hrun⟩ := claim_C4_uncoverable 30 raw4 (by decide)
    (by decide) (by decide) ⟨⟨1, "Math", 1, 100, 1, "C1"⟩, by
      have : (normalize_data raw4).courses.head? = some ⟨1, "Math", 1, 100, 1, "C1"⟩ := by rfl
      exact List.mem_of_mem_head? this, by decide⟩
  exact ⟨c, hc, hall, (hrun CpStatus.feasible (fun _ => true)).1⟩

/-- **C5, counterexample.** The code returns the same result for a solver
run that ends UNKNOWN (the CP-SAT status when the time budget — here 0
seconds — elapses without a verdict) as for one that proves INFEASIBLE:
both take the same exit branch, print the same message and return the same
`False`. No `Timeout` outcome distinct from `Infeasible` exists, falsifying
the claim that a caller can tell the two apart. -/
theorem claim_C5_counterexample :
    generate_timetable 0 true rawA CpStatus.unknown (fun _ => false)
      = generate_timetable 0 true rawA CpStatus.infeasible (fun _ => false) ∧
    (generate_timetable 0 true rawA CpStatus.unknown (fun _ => false)).outcome
      = SolveOutcome.notSolved ∧
    (generate_timetable 0 true rawA CpStatus.infeasible (fun _ => false)).outcome
      = SolveOutcome.notSolved := by
  exact ⟨rfl, rfl, rfl⟩

/-- **C5, amended.** The solve returns a typed exit distinguishing
dataset-missing, insufficient-data, model-build-failure (with the course
name), not-solved and solved — but an Infeasible verdict and a Timeout
(UNKNOWN status, e.g. under a 0 or near-zero time limit) are collapsed
into the single not-solved exit: for any run that reaches the solver, the
result under UNKNOWN equals the result under INFEASIBLE, so a caller
cannot tell a Timeout apart from an Infeasible verdict. -/
theorem claim_C5_timeout_indistinguishable (tl tl2 : Nat) (raw : RawData)
    (σ σ2 : Cand → Bool)
    (hg : ((normalize_data raw).courses.isEmpty || (normalize_data raw).timeslots.isEmpty
        || (normalize_data raw).classrooms.isEmpty) = false)
    (hf : firstUncoverable (normalize_data raw).courses (candsOf (normalize_data raw))
        = none) :
    generate_timetable tl true raw CpStatus.unknown σ
        = generate_timetable tl2 true raw CpStatus.infeasible σ2 ∧
    (generate_timetable tl true raw CpStatus.unknown σ).outcome
        = SolveOutcome.notSolved := by
  rw [generate_not_feasible tl raw CpStatus.unknown σ hg hf (by simp),
    generate_not_feasible tl2 raw CpStatus.infeasible σ2 hg hf (by simp)]
  exact ⟨rfl, rfl⟩

theorem claim_C5_timeout_indistinguishable_witness :
    generate_timetable 0 true rawA CpStatus.unknown sigA
        = generate_timetable 30 true rawA CpStatus.infeasible sigA ∧
    (generate_timetable 0 true rawA CpStatus.unknown sigA).outcome
        = SolveOutcome.notSolved :=
  claim_C5_timeout_indistinguishable 0 30 rawA sigA sigA (by rfl) (by rfl)

/-- **C6.** Every failing solve attempt — dataset missing, insufficient
data, uncoverable course, or a not-solved (infeasible/timeout) verdict —
performs no operation at all on the persisted schedule store or the export
files; a successful solve performs exactly one clear followed by exactly
one commit of the new rows (and then the two export-file writes). -/
theorem claim_C6_store_effects (tl : Nat) (dfe : Bool) (raw : RawData)
    (status : CpStatus) (σ : Cand → Bool) :
    ((generate_timetable tl dfe raw status σ).outcome = .dataFileMissing →
      (generate_timetable tl dfe raw status σ).trace = []) ∧
    ((generate_timetable tl dfe raw status σ).outcome = .insufficientData →
      (generate_timetable tl dfe raw status σ).trace = []) ∧
    (∀ n, (generate_timetable tl dfe raw status σ).outcome = .noValidCandidates n →
      (generate_timetable tl dfe raw status σ).trace = []) ∧
    ((generate_timetable tl dfe raw status σ).outcome = .notSolved →
      (generate_timetable tl dfe raw status σ).trace = []) ∧
    (∀ es, (generate_timetable tl dfe raw status σ).outcome = .solved es →
      (generate_timetable tl dfe raw status σ).trace
        = [.clear, .commitDb (es.map dbOf), .writeJson, .writeXlsx]) := by
  rcases generate_cases tl dfe raw status σ with h | h | ⟨n, h⟩ | h | h | ⟨es, h⟩ <;>
    rw [h] <;>
    refine ⟨?_, ?_, ?_, ?_, ?_⟩ <;>
    simp

theorem claim_C6_store_effects_witness :
    (generate_timetable 30 true rawA CpStatus.infeasible sigA).trace = [] ∧
    (generate_timetable 30 true rawA CpStatus.feasible sigA).trace
      = [.clear, .commitDb (esA.map dbOf), .writeJson, .writeXlsx] := by
  refine ⟨(claim_C6_store_effects 30 true rawA CpStatus.infeasible sigA).2.2.2.1 (by rfl), ?_⟩
  exact (claim_C6_store_effects 30 true rawA CpStatus.feasible sigA).2.2.2.2 esA (by rfl)

/-- Two courses taught by the same faculty, one classroom, one timeslot. -/
def raw7 : RawData :=
  { faculties := [⟨"F1", "Prof A"⟩]
    courses := [⟨"C1", "Math", some 1, some 10, some "F1"⟩,
                ⟨"C2", "Phys", some 1, some 10, some "F1"⟩]
    classrooms := [⟨"R1", "Room 1", some 50⟩]
    timeslots := [⟨"T1", "Mon 9"⟩] }

/-- What the extractor emits on `raw7` when the claimed valuation selects
every variable: two entries in the same room at the same timeslot. -/
def es7 : List Entry :=
  [⟨1, 1, 1, 1, "Math", "Prof A", "Room 1", "Mon 9"⟩,
   ⟨2, 1, 1, 1, "Phys", "Prof A", "Room 1", "Mon 9"⟩]

/-- **C7, counterexample.** Fed a claimed-feasible valuation that selects
both variables of `raw7` — violating room exclusivity (two entries share
timeslot 1 / classroom 1) and faculty exclusivity — the extractor emits
the entries as a Solved result. No re-verification happens and no fatal
internal-consistency outcome exists or is raised: the claim that the
extractor re-verifies and raises on violation is false. -/
theorem claim_C7_counterexample :
    (generate_timetable 30 true raw7 CpStatus.feasible (fun _ => true)).outcome
        = SolveOutcome.solved es7 ∧
    es7.countP (fun e => e.timeslot_id == 1 && e.classroom_id == 1) = 2 ∧
    es7.countP (fun e => e.timeslot_id == 1 && e.faculty_id == 1) = 2 := by
  exact ⟨rfl, rfl, rfl⟩

/-- **C7, amended.** The Solution Extractor performs no re-verification:
whenever the reported status is FEASIBLE/OPTIMAL and every per-entry
lookup succeeds, the result is Solved with exactly the extracted entries,
with no condition whatsoever on whether the claimed valuation satisfies
room-exclusivity, faculty-exclusivity or course-coverage; the repository
has no internal-consistency error path. -/
theorem claim_C7_no_reverification (tl : Nat) (raw : RawData) (status : CpStatus)
    (σ : Cand → Bool) (es : List Entry)
    (hst : status = CpStatus.optimal ∨ status = CpStatus.feasible)
    (hg : ((normalize_data raw).courses.isEmpty || (normalize_data raw).timeslots.isEmpty
        || (normalize_data raw).classrooms.isEmpty) = false)
    (hf : firstUncoverable (normalize_data raw).courses (candsOf (normalize_data raw))
        = none)
    (hex : extractEntries (normalize_data raw) ((candsOf (normalize_data raw)).filter σ)
        = some es) :
    (generate_timetable tl true raw status σ).outcome = .solved es :=
  generate_extract_solved hst hg hf hex

theorem claim_C7_no_reverification_witness :
    (generate_timetable 30 true raw7 CpStatus.feasible (fun _ => true)).outcome
      = SolveOutcome.solved es7 :=
  claim_C7_no_reverification 30 raw7 CpStatus.feasible (fun _ => true) es7
    (Or.inr rfl) (by rfl) (by rfl) (by rfl)

/-- A raw dataset whose course and classroom leave every optional field
absent. -/
def raw8 : RawData :=
  { faculties := [⟨"F1", "Prof A"⟩]
    courses := [⟨"C1", "Math", none, none, none⟩]
    classrooms := [⟨"R1", "Room 1", none⟩]
    timeslots := [⟨"T1", "Mon 9"⟩] }

/-- **C8, counterexample.** A course record with no `requiredSlots` field
normalizes to `sessions_per_week = 1`, not 3: the normalizer's default is
`c.get("requiredSlots", 1)`. -/
theorem claim_C8_counterexample :
    (normalize_data raw8).courses.map (fun c => c.sessions_per_week) = [1] ∧
    (normalize_data raw8).courses.map (fun c => c.sessions_per_week) ≠ [3] := by
  refine ⟨rfl, ?_⟩
  intro h
  rw [show (normalize_data raw8).courses.map (fun c => c.sessions_per_week) = [1] from rfl] at h
  cases h

/-- **C8, amended.** The Entity Normalizer substitutes defaults for
absent optional fields without failing (it is total): a course's required
sessions per week defaults to **1**, a course's enrollment size defaults
to 30, a classroom's capacity defaults to 50, and a course's faculty
reference, when absent or unresolvable, defaults to internal index 1 —
which is the id of the first normalized faculty in input order (when
faculties are present, with distinct ids per the spec's invariant). -/
theorem claim_C8_defaults (raw : RawData) :
    (∀ (i : Nat) (c : RawCourse), raw.courses[i]? = some c →
      ∃ nc, (normalize_data raw).courses[i]? = some nc ∧
        (c.requiredSlots = none → nc.sessions_per_week = 1) ∧
        (c.size = none → nc.size = 30) ∧
        (c.faculty_id = none → nc.faculty_id = 1) ∧
        (∀ s, c.faculty_id = some s →
          dictOf (idMapPairs 0 (raw.faculties.map (fun f => f.id))) s = none →
          nc.faculty_id = 1)) ∧
    (∀ (i : Nat) (r : RawClassroom), raw.classrooms[i]? = some r →
      ∃ nr, (normalize_data raw).classrooms[i]? = some nr ∧
        (r.capacity = none → nr.capacity = 50)) ∧
    ((raw.faculties.map (fun f => f.id)).Nodup →
      ∀ f0, (normalize_data raw).faculties[0]? = some f0 → f0.id = 1) := by
  refine ⟨?_, ?_, ?_⟩
  · intro i c hc
    refine ⟨normCourse (dictOf (idMapPairs 0 (raw.faculties.map (fun f => f.id))))
      (dictOf (idMapPairs 0 (raw.courses.map (fun c => c.id)))) c, ?_, ?_, ?_, ?_, ?_⟩
    · show (raw.courses.map _)[i]? = _
      rw [List.getElem?_map, hc]
      rfl
    · intro h
      simp [normCourse, h]
    · intro h
      simp [normCourse, h]
    · intro h
      simp [normCourse, h]
    · intro s hs hnone
      simp [normCourse, hs, hnone]
  · intro i r hr
    refine ⟨normClassroom (dictOf (idMapPairs 0 (raw.classrooms.map (fun r => r.id)))) r,
      ?_, ?_⟩
    · show (raw.classrooms.map _)[i]? = _
      rw [List.getElem?_map, hr]
      rfl
    · intro h
      simp [normClassroom, h]
  · intro hnd f0 hf0
    cases hfs : raw.faculties with
    | nil =>
      rw [show (normalize_data raw).faculties = raw.faculties.map _ from rfl, hfs] at hf0
      cases hf0
    | cons f fs =>
      rw [show (normalize_data raw).faculties = raw.faculties.map
          (normFaculty (dictOf (idMapPairs 0 (raw.faculties.map (fun f => f.id))))) from rfl,
        List.getElem?_map, hfs] at hf0
      simp only [List.getElem?_cons_zero, Option.map_some', Option.some.injEq] at hf0
      have h0 : 0 < (raw.faculties.map (fun f => f.id)).length := by
        simp [hfs]
      have hid : (raw.faculties.map (fun f => f.id))[0] = f.id := by
        rw [List.getElem_map]
        simp [hfs]
      have hd := dictOf_idMapPairs hnd h0
      rw [hid, hfs] at hd
      simp only [List.map_cons] at hd
      rw [← hf0]
      simp [normFaculty, hd]

theorem claim_C8_defaults_witness :
    ∃ nc, (normalize_data raw8).courses[0]? = some nc ∧ nc.sessions_per_week = 1
      ∧ nc.size = 30 ∧ nc.faculty_id = 1 := by
  obtain ⟨nc, hnc, h1, h2, h3, _⟩ := (claim_C8_defaults raw8).1 0
    ⟨"C1", "Math", none, none, none⟩ (by rfl)
  exact ⟨nc, hnc, h1 rfl, h2 rfl, h3 rfl⟩

/-- A capacity-feasible dataset whose faculties list is empty. -/
def raw10 : RawData :=
  { faculties := []
    courses := [⟨"C1", "Math", some 1, some 10, none⟩]
    classrooms := [⟨"R1", "Room 1", some 50⟩]
    timeslots := [⟨"T1", "Mon 9"⟩] }

/-- **C10.** The pre-solve emptiness guard checks only courses, timeslots
and classrooms: on `raw10` (non-empty, capacity-feasible courses,
classrooms and timeslots, but zero faculties) the run passes the guard
(the outcome is not the insufficient-data exit), the course is defaulted
to faculty index 1 which resolves to no faculty record, and extraction of
a found solution hits an exhausted `next(...)` — an unhandled
`StopIteration`, after the eager clear — instead of returning any typed
outcome. -/
theorem claim_C10_empty_faculties :
    (normalize_data raw10).faculties = [] ∧
    (normalize_data raw10).courses.map (fun c => c.faculty_id) = [1] ∧
    generate_timetable 30 true raw10 CpStatus.feasible (fun _ => true)
        = { outcome := SolveOutcome.exception, trace := [StoreOp.clear] } ∧
    (generate_timetable 30 true raw10 CpStatus.feasible (fun _ => true)).outcome
        ≠ SolveOutcome.insufficientData ∧
    ∀ es, (generate_timetable 30 true raw10 CpStatus.feasible (fun _ => true)).outcome
        ≠ SolveOutcome.solved es := by
  refine ⟨rfl, rfl, rfl, ?_, ?_⟩
  · intro h
    rw [show (generate_timetable 30 true raw10 CpStatus.feasible (fun _ => true)).outcome
        = SolveOutcome.exception from rfl] at h
    cases h
  · intro es h
    rw [show (generate_timetable 30 true raw10 CpStatus.feasible (fun _ => true)).outcome
        = SolveOutcome.exception from rfl] at h
    cases h

/-- **C9.** Scenario A: on the dataset with 1 course
(sessions_per_week = 2, size = 10), 1 faculty, 2 classrooms of capacity 20
and 3 timeslots, the model is satisfiable (`sigA` is a satisfying
valuation, so a complete solver with sufficient budget reports feasible),
and for every valuation the solver can soundly report, the solve returns
Solved with exactly 2 entries, both for the course, on 2 distinct
timeslots. -/
theorem claim_C9_scenarioA :
    satisfiesModel (normalize_data rawA) (candsOf (normalize_data rawA)) sigA ∧
    ∀ σ : Cand → Bool,
      satisfiesModel (normalize_data rawA) (candsOf (normalize_data rawA)) σ →
      ∃ es, (generate_timetable 30 true rawA CpStatus.feasible σ).outcome = .solved es ∧
        es.countP (fun e => e.course_id == 1) = 2 ∧
        ∃ e1 e2, es = [e1, e2] ∧ e1.timeslot_id ≠ e2.timeslot_id := by
  constructor
  · decide
  intro σ hsat
  have hcands : candsOf (normalize_data rawA)
      = [(1, 1, 1), (1, 1, 2), (1, 2, 1), (1, 2, 2), (1, 3, 1), (1, 3, 2)] := rfl
  have hk1all : ∀ k ∈ candsOf (normalize_data rawA), k.1 = 1 := by
    rw [hcands]; decide
  -- every selected variable extracts successfully
  have hall : ∀ k ∈ (candsOf (normalize_data rawA)).filter σ,
      (extractOne (normalize_data rawA) k).isSome := by
    intro k hk
    have hkm := (List.mem_filter.mp hk).1
    rw [hcands] at hkm
    fin_cases hkm <;> decide
  obtain ⟨es, hex⟩ := extractEntries_all_some hall
  have hsol : (generate_timetable 30 true rawA CpStatus.feasible σ).outcome = .solved es :=
    generate_extract_solved (Or.inr rfl) (by rfl) (by rfl) hex
  -- the coverage constraint forces exactly two selected variables
  have hcmem : (⟨1, "Math", 2, 10, 1, "C1"⟩ : NCourse) ∈ (normalize_data rawA).courses := by
    decide
  have hcov := hsat.1 ⟨1, "Math", 2, 10, 1, "C1"⟩ hcmem
  have hflt : (candsOf (normalize_data rawA)).filter
      (fun k => k.1 == (⟨1, "Math", 2, 10, 1, "C1"⟩ : NCourse).id)
      = candsOf (normalize_data rawA) := rfl
  unfold nSelected at hcov
  rw [hflt] at hcov
  -- hcov : ((candsOf …).filter σ).length = 2
  have hf2 := extractEntries_forall₂ hex
  have hcount : es.countP (fun e => e.course_id == 1) = 2 := by
    have h := countP_entries hex (p := fun e => e.course_id == 1)
      (q := fun k => k.1 == 1) ?hpq
    case hpq =>
      intro k e hke
      obtain ⟨h1, _, _⟩ := extractOne_ids hke
      show (k.1 == 1) = (e.course_id == 1)
      rw [h1]
    rw [h]
    have : ((candsOf (normalize_data rawA)).filter σ).countP (fun k => k.1 == 1)
        = ((candsOf (normalize_data rawA)).filter σ).length := by
      rw [List.countP_eq_length_filter]
      congr 1
      rw [List.filter_eq_self]
      intro k hk
      have := hk1all k (List.mem_filter.mp hk).1
      simp [this]
    rw [this, hcov]
  have hlen2 : es.length = 2 := by
    rw [← hf2.length_eq, hcov]
  -- decompose the two entries and their source variables
  rcases es with _ | ⟨e1, es1⟩
  · simp at hlen2
  rcases es1 with _ | ⟨e2, es2⟩
  · simp at hlen2
  rcases es2 with _ | ⟨e3, es3⟩
  case cons.cons.cons => simp at hlen2
  rw [List.forall₂_cons_right_iff] at hf2
  obtain ⟨k1, S1, hk1e, hf2b, hSeq⟩ := hf2
  rw [List.forall₂_cons_right_iff] at hf2b
  obtain ⟨k2, S2, hk2e, hf2c, hS1eq⟩ := hf2b
  have hS2nil : S2 = [] := List.forall₂_nil_right_iff.mp hf2c
  have hS : (candsOf (normalize_data rawA)).filter σ = [k1, k2] := by
    rw [hSeq, hS1eq, hS2nil]
  have hk1m : k1 ∈ candsOf (normalize_data rawA) := by
    have : k1 ∈ (candsOf (normalize_data rawA)).filter σ := by rw [hS]; simp
    exact (List.mem_filter.mp this).1
  have hk2m : k2 ∈ candsOf (normalize_data rawA) := by
    have : k2 ∈ (candsOf (normalize_data rawA)).filter σ := by rw [hS]; simp
    exact (List.mem_filter.mp this).1
  obtain ⟨he1c, he1t, _⟩ := extractOne_ids hk1e
  obtain ⟨he2c, he2t, _⟩ := extractOne_ids hk2e
  refine ⟨[e1, e2], hsol, hcount, e1, e2, rfl, ?_⟩
  -- distinct timeslots: otherwise faculty exclusivity is violated
  intro heq
  have htt : k1.2.1 = k2.2.1 := by
    rw [← he1t, ← he2t, heq]
  have hctf : courseToFac (normalize_data rawA).courses 1 = some 1 := rfl
  have main : ∀ t : NTimeslot, t ∈ (normalize_data rawA).timeslots →
      t.id = k1.2.1 → False := by
    intro t ht htid
    have hfac := hsat.2.2 ⟨1, "Prof A", "F1"⟩ (by decide) t ht
    rw [nSelected_eq_countP, hS] at hfac
    have hq1 : (k1.2.1 == t.id
        && courseToFac (normalize_data rawA).courses k1.1
          == some (⟨1, "Prof A", "F1"⟩ : NFaculty).id) = true := by
      rw [hk1all k1 hk1m, hctf, htid]
      simp
    have hq2 : (k2.2.1 == t.id
        && courseToFac (normalize_data rawA).courses k2.1
          == some (⟨1, "Prof A", "F1"⟩ : NFaculty).id) = true := by
      rw [hk1all k2 hk2m, hctf, htid, htt]
      simp
    rw [List.countP_cons, List.countP_cons] at hfac
    simp only [List.countP_nil, hq1, hq2, if_true] at hfac
    omega
  have h123 : k1.2.1 = 1 ∨ k1.2.1 = 2 ∨ k1.2.1 = 3 := by
    have : ∀ k ∈ candsOf (normalize_data rawA), k.2.1 = 1 ∨ k.2.1 = 2 ∨ k.2.1 = 3 := by
      rw [hcands]; decide
    exact this k1 hk1m
  rcases h123 with h | h | h
  · exact main ⟨1, "Mon 9", "T1"⟩ (by decide) h.symm
  · exact main ⟨2, "Mon 10", "T2"⟩ (by decide) h.symm
  · exact main ⟨3, "Mon 11", "T3"⟩ (by decide) h.symm

theorem claim_C9_scenarioA_witness :
    ∃ es, (generate_timetable 30 true rawA CpStatus.feasible sigA).outcome = .solved es ∧
      es.countP (fun e => e.course_id == 1) = 2 ∧
      ∃ e1 e2, es = [e1, e2] ∧ e1.timeslot_id ≠ e2.timeslot_id :=
  claim_C9_scenarioA.2 sigA claim_C9_scenarioA.1

end Scheduler
